import Mathlib

/-!
Verification of the gomux stream multiplexer: a shallow embedding of the
stream state machine (`Stream` in the source), the frame-header encoding
(`streamID.header`), and the address accessors (`addr.go`), together with
theorems settling the specification claims.

Machine integers are modelled as `Nat` with explicit `% 2 ^ 64` where Go's
`uint64` wraparound matters.  The session-side send path (`sendMsg`), which
lives outside the stream code, is modelled as an oracle giving the result of
each submission; successful submissions are recorded in an explicit frame
trace.
-/

namespace Gomux

/-- The modulus of Go's `uint64` arithmetic. -/
def U64 : Nat := 2 ^ 64

/-- `streamID` from the source: the pair (number, initiator-flag). -/
structure streamID where
  id : Nat
  initiator : Bool
  deriving DecidableEq, Repr

/-- `streamID.header` from the source:
`header := id.id<<3 | tag; if !id.initiator { header-- }`, in `uint64`
arithmetic (the decrement wraps at zero). -/
def streamID.header (s : streamID) (tag : Nat) : Nat :=
  let h := (((s.id % U64) <<< 3) % U64) ||| (tag % U64)
  if s.initiator then h else (h + (U64 - 1)) % U64

/-- Bits 0..2 and bits 3.. of `a <<< 3 ||| t` are disjoint, so the bitwise
or is an addition whenever `t < 8`. -/
theorem shiftLeft3_lor_eq_add (a t : Nat) (ht : t < 8) :
    (a <<< 3) ||| t = a * 8 + t := by
  apply Nat.eq_of_testBit_eq
  intro i
  rw [Nat.testBit_lor, Nat.testBit_shiftLeft]
  rcases Nat.lt_or_ge i 3 with hi | hi
  · have hm : (a * 8 + t) % 8 = t := by omega
    have hbit := Nat.testBit_mod_two_pow (a * 8 + t) 3 i
    rw [show (2 : Nat) ^ 3 = 8 by norm_num, hm] at hbit
    have hlow : Nat.testBit (a * 8 + t) i = Nat.testBit t i := by
      rw [hbit, decide_eq_true hi, Bool.true_and]
    have h3 : ¬ (3 ≤ i) := by omega
    simp [hlow, h3]
  · obtain ⟨j, rfl⟩ : ∃ j, i = 3 + j := ⟨i - 3, by omega⟩
    have hdiv : (a * 8 + t) >>> 3 = a := by
      rw [Nat.shiftRight_eq_div_pow]
      norm_num
      omega
    have hhigh : Nat.testBit (a * 8 + t) (3 + j) = Nat.testBit a j := by
      rw [← Nat.testBit_shiftRight, hdiv]
    have htb : Nat.testBit t (3 + j) = false := by
      apply Nat.testBit_lt_two_pow
      calc t < 8 := ht
        _ = 2 ^ 3 := by norm_num
        _ ≤ 2 ^ (3 + j) := Nat.pow_le_pow_right (by norm_num) (by omega)
    have h3 : 3 ≤ 3 + j := by omega
    simp [hhigh, htb, h3]

/-- C1: for every streamID (number, initiator-flag) and every tag, the
computed frame header equals `number <<< 3 ||| tag` for the initiator and
that value minus one (in `uint64` arithmetic) for the non-initiator;
equivalently the low 3 bits of the initiator header carry the tag and the
upper bits carry the number. -/
theorem C1_header_layout (id tag : Nat) (hid : id < 2 ^ 61) (htag : tag < 8) :
    streamID.header ⟨id, true⟩ tag = (id <<< 3) ||| tag ∧
    streamID.header ⟨id, false⟩ tag = (((id <<< 3) ||| tag) + U64 - 1) % U64 ∧
    streamID.header ⟨id, true⟩ tag % 8 = tag ∧
    streamID.header ⟨id, true⟩ tag / 8 = id ∧
    (1 ≤ (id <<< 3) ||| tag →
      streamID.header ⟨id, false⟩ tag = ((id <<< 3) ||| tag) - 1) := by
  have hU : U64 = 2 ^ 64 := rfl
  have hadd := shiftLeft3_lor_eq_add id tag htag
  have hidU : id % U64 = id := Nat.mod_eq_of_lt (by rw [hU]; omega)
  have hsh : id <<< 3 = id * 8 := by
    rw [Nat.shiftLeft_eq]
  have hshU : (id * 8) % U64 = id * 8 := Nat.mod_eq_of_lt (by rw [hU]; omega)
  have htagU : tag % U64 = tag := Nat.mod_eq_of_lt (by rw [hU]; omega)
  have hT : streamID.header ⟨id, true⟩ tag = (id <<< 3) ||| tag := by
    simp [streamID.header, hidU, hsh, hshU, htagU]
  have hF : streamID.header ⟨id, false⟩ tag
      = (((id <<< 3) ||| tag) + (U64 - 1)) % U64 := by
    simp [streamID.header, hidU, hsh, hshU, htagU]
  have hU1 : 1 ≤ U64 := by rw [hU]; norm_num
  refine ⟨hT, ?_, ?_, ?_, ?_⟩
  · have harg : ((id <<< 3) ||| tag) + (U64 - 1) = ((id <<< 3) ||| tag) + U64 - 1 := by
      omega
    rw [hF, harg]
  · rw [hT, hadd]; omega
  · rw [hT, hadd]; omega
  · intro h1
    rw [hF, hadd, hsh] at *
    have : (id * 8 + tag + (U64 - 1)) % U64 = id * 8 + tag - 1 := by
      have hlt : id * 8 + tag < U64 := by rw [hU]; omega
      have : id * 8 + tag + (U64 - 1) = (id * 8 + tag - 1) + U64 := by omega
      rw [this, Nat.add_mod_right]
      exact Nat.mod_eq_of_lt (by omega)
    omega

/-- Witness for C1 at a concrete input. -/
theorem C1_header_layout_witness :
    streamID.header ⟨5, true⟩ 2 % 8 = 2 :=
  (C1_header_layout 5 2 (by norm_num) (by norm_num)).2.2.1

/-- Modelled from the spec: the `messageTag` constant (tag table, the
initiator-to-receiver Message value 2); the constants of the repository are
not under src/. -/
def messageTag : Nat := 2

/-- Modelled from the spec: the `closeTag` constant (tag table, the
initiator-to-receiver Close value 4). -/
def closeTag : Nat := 4

/-- Modelled from the spec: the `resetTag` constant (tag table, the
initiator-to-receiver Reset value 6). -/
def resetTag : Nat := 6

/-- Modelled from the spec: `MaxMessageSize`, default 1 MiB. -/
def MaxMessageSize : Nat := 1 <<< 20

/-- Modelled from the spec: `ResetStreamTimeout`, default a few seconds. -/
def ResetStreamTimeout : Nat := 5

/-- The read-side errors of the stream code: `ErrReset`, `io.EOF`,
`errTimeout`, the `cannot write to closed stream` error, `context.Canceled`,
`errStreamClosed`, and a generic transport error. -/
inductive MErr
  | reset | eof | timeout | closedStream | canceled | streamClosed | ioErr
  deriving DecidableEq, Repr

/-- A pool buffer: an identity (for tracking pool releases) and its bytes. -/
structure Buf where
  bid : Nat
  data : List Nat
  deriving DecidableEq, Repr

/-- A frame successfully submitted to the session's write path: its tag, its
already-encoded header, the payload length, and the cancellation bound the
submission ran under (a deadline instant, `ResetStreamTimeout` for Close
frames, 0 for none). -/
structure Frame where
  tag : Nat
  header : Nat
  payloadLen : Nat
  bound : Nat
  deriving DecidableEq, Repr

/-- The `Stream` state from the source, with the session-visible effects made
explicit: `released` is the ordered log of pool releases (`pool.Put`),
`framesSent` the ordered log of successful `sendMsg` submissions,
`asyncResets` the number of spawned `sendResetMsg` goroutines, `inTable`
whether `mp.channels` still holds the stream, and `killed` whether the
stream killed the whole session (`mp.Close()`).  Deadlines are instants with
0 meaning disabled (`time.Time{}`). -/
structure Stream where
  id : streamID
  name : String
  dataIn : List Buf
  dataInClosed : Bool
  extra : Option (List Nat)
  exbuf : Option Buf
  rDeadline : Nat
  wDeadline : Nat
  closedRemote : Bool
  resetFired : Bool
  closedLocal : Bool
  inTable : Bool
  released : List Nat
  framesSent : List Frame
  asyncResets : Nat
  killed : Bool
  deriving DecidableEq, Repr

/-- `Stream.isClosed` from the source: `closedLocal.Err() != nil`. -/
def Stream.isClosed (s : Stream) : Bool := s.closedLocal

/-- `Stream.preloadData` from the source: non-blockingly pop the next queued
buffer into `extra`/`exbuf`; on an empty (or closed and drained) queue do
nothing. -/
def Stream.preloadData (s : Stream) : Stream :=
  match s.dataIn with
  | b :: rest => { s with extra := some b.data, exbuf := some b, dataIn := rest }
  | [] => s

/-- `Stream.returnBuffers` from the source: release `exbuf` if held, then
drain `dataIn`, releasing each queued buffer in order. -/
def Stream.returnBuffers (s : Stream) : Stream :=
  let s1 :=
    match s.exbuf with
    | some b => { s with released := s.released ++ [b.bid], exbuf := none, extra := none }
    | none => s
  { s1 with released := s1.released ++ s1.dataIn.map Buf.bid, dataIn := [] }

/-- Which case of the `select` in `waitForData` fires. -/
inductive RChoice
  | rReset | rData | rTimeout
  deriving DecidableEq, Repr

/-- Readiness of each `select` case in `waitForData` at time `now`: the reset
channel is ready once closed, the data channel is ready when a buffer is
queued or the channel is closed, the deadline case is ready when a nonzero
read deadline has passed. -/
def Stream.wfdReady (s : Stream) (now : Nat) : RChoice → Bool
  | .rReset => s.resetFired
  | .rData => !s.dataIn.isEmpty || s.dataInClosed
  | .rTimeout => decide (s.rDeadline ≠ 0 ∧ s.rDeadline ≤ now)

/-- `Stream.waitForData` from the source: `select` over the reset channel
(return the buffers, fail with `ErrReset`), the data channel (load
`extra`/`exbuf`, or `io.EOF` when closed and drained), and the read
deadline (`errTimeout`).  `c` resolves the choice among ready cases; `none`
means the chosen case is not ready (the call would block on it). -/
def Stream.waitForData (s : Stream) (now : Nat) (c : RChoice) :
    Option (Option MErr × Stream) :=
  if s.wfdReady now c then
    match c with
    | .rReset => some (some .reset, s.returnBuffers)
    | .rData =>
      match s.dataIn with
      | b :: rest =>
          some (none, { s with extra := some b.data, exbuf := some b, dataIn := rest })
      | [] => some (some .eof, s)
    | .rTimeout => some (some .timeout, s)
  else none

/-- The front-buffer release step inside `Stream.Read`:
`if s.exbuf != nil { pool.Put(s.exbuf) }; s.extra = nil; s.exbuf = nil`. -/
def Stream.releaseFront (s : Stream) : Stream :=
  match s.exbuf with
  | some b => { s with released := s.released ++ [b.bid], extra := none, exbuf := none }
  | none => { s with extra := none, exbuf := none }

/-- Helper bound for the termination of the copy loop of `Stream.Read`. -/
theorem preload_release_measure (s : Stream) :
    (s.releaseFront.preloadData).dataIn.length
      + (if (s.releaseFront.preloadData).extra.isSome then 1 else 0)
      ≤ s.dataIn.length := by
  cases hb : s.exbuf <;> cases hd : s.dataIn <;>
    simp [Stream.releaseFront, Stream.preloadData, hb, hd]

/-- The copy loop of `Stream.Read`
(`for s.extra != nil && n < len(b) { ... }`): `cap` is `len(b)`, `n` the
bytes copied so far.  A fully consumed front buffer is released to the pool
and the next queued buffer preloaded non-blockingly. -/
def Stream.readLoop (s : Stream) (cap n : Nat) : Nat × Option MErr × Stream :=
  match hx : s.extra with
  | none => (n, none, s)
  | some ex =>
    if n < cap then
      let read := min (cap - n) ex.length
      if read < ex.length then
        (n + read, none, { s with extra := some (ex.drop read) })
      else
        (s.releaseFront.preloadData).readLoop cap (n + read)
    else (n, none, s)
termination_by s.dataIn.length + (if s.extra.isSome then 1 else 0)
decreasing_by
  have h := preload_release_measure s
  simp [hx] at *
  omega

/-- `Stream.Read` from the source.  `now` is the current time for the read
deadline, `c` resolves the `select` in `waitForData`, `cap` is `len(b)`.
`none` means the call blocks. -/
def Stream.Read (s : Stream) (now : Nat) (c : RChoice) (cap : Nat) :
    Option (Nat × Option MErr × Stream) :=
  if s.resetFired then some (0, some .reset, s)
  else
    match s.extra with
    | none =>
      match s.waitForData now c with
      | none => none
      | some (some e, s1) => some (0, some e, s1)
      | some (none, s1) => some (s1.readLoop cap 0)
    | some _ => some (s.readLoop cap 0)

/-- `Stream.write` from the source (single chunk).  `res` is the result the
session's `sendMsg` returns for this submission (the send path is outside
the stream code); `context.Canceled` is mapped to the closed-stream error. -/
def Stream.write (s : Stream) (res : Option MErr) (b : List Nat) :
    Nat × Option MErr × Stream :=
  if s.isClosed then (0, some .closedStream, s)
  else
    match res with
    | some e => (0, some (if e = .canceled then .closedStream else e), s)
    | none =>
        (b.length, none,
          { s with framesSent := s.framesSent ++
              [⟨messageTag, s.id.header messageTag, b.length, s.wDeadline⟩] })

/-- `Stream.Write` from the source: fragment the buffer into chunks of at
most `MaxMessageSize` and submit each through `Stream.write`; stop at the
first error, returning the bytes written so far.  `send i` is the `sendMsg`
result for the `i`-th submission. -/
def Stream.Write (s : Stream) (send : Nat → Option MErr) (idx : Nat) :
    List Nat → Nat × Option MErr × Stream
  | [] => (0, none, s)
  | x :: xs =>
    let wl := min (x :: xs).length MaxMessageSize
    match (s.write (send idx) ((x :: xs).take wl)) with
    | (_, some e, s1) => (0, some e, s1)
    | (n, none, s1) =>
      let r := s1.Write send (idx + 1) ((x :: xs).drop wl)
      (n + r.1, r.2.1, r.2.2)
termination_by b => b.length
decreasing_by
  have hM : 0 < MaxMessageSize := by decide
  simp
  omega

/-- The chunk decomposition `Stream.Write` performs, as a standalone
function. -/
def chunks : List Nat → List (List Nat)
  | [] => []
  | x :: xs => ((x :: xs).take MaxMessageSize) :: chunks ((x :: xs).drop MaxMessageSize)
termination_by b => b.length
decreasing_by
  have hM : 0 < MaxMessageSize := by decide
  simp
  omega

/-- `Stream.cancelDeadlines` from the source: set both deadlines to the zero
time (disabled). -/
def Stream.cancelDeadlines (s : Stream) : Stream :=
  { s with rDeadline := 0, wDeadline := 0 }

/-- `Stream.Close` from the source.  `sendErr` is the result of the
`sendMsg` submission of the Close frame (a submission bounded by a
`ResetStreamTimeout` context, recorded in the frame's `bound`), `shutdown`
is `mp.isShutdown()`. -/
def Stream.Close (s : Stream) (sendErr : Option MErr) (shutdown : Bool) :
    Option MErr × Stream :=
  let s1 :=
    match sendErr with
    | none => { s with framesSent := s.framesSent ++
        [⟨closeTag, s.id.header closeTag, 0, ResetStreamTimeout⟩] }
    | some _ => s
  if s1.isClosed then (none, s1)
  else
    let remote := s1.closedRemote
    let s2 := { s1 with closedLocal := true }
    let s3 := if remote then { s2.cancelDeadlines with inTable := false } else s2
    match sendErr with
    | some e => if !shutdown then (some e, { s3 with killed := true }) else (some e, s3)
    | none => (none, s3)

/-- `Stream.Reset` from the source: a no-op on a fully closed or already
reset stream; otherwise fire the reset signal, close the local side, mark
the remote side closed, cancel both deadlines, spawn an asynchronous Reset
frame emission, and remove the stream from the channel table. -/
def Stream.Reset (s : Stream) : Option MErr × Stream :=
  if s.closedRemote && s.isClosed then (none, s)
  else if s.resetFired then (none, s)
  else
    (none,
      { s.cancelDeadlines with
          resetFired := true, closedLocal := true, closedRemote := true,
          asyncResets := s.asyncResets + 1, inTable := false })

/-- `Stream.SetDeadline` from the source. -/
def Stream.SetDeadline (s : Stream) (t : Nat) : Option MErr × Stream :=
  if s.closedRemote && s.isClosed then (some .streamClosed, s)
  else
    let s1 := if !s.closedRemote then { s with rDeadline := t } else s
    let s2 := if !s1.isClosed then { s1 with wDeadline := t } else s1
    (none, s2)

/-- `Stream.SetReadDeadline` from the source. -/
def Stream.SetReadDeadline (s : Stream) (t : Nat) : Option MErr × Stream :=
  if s.closedRemote then (some .streamClosed, s)
  else (none, { s with rDeadline := t })

/-- `Stream.SetWriteDeadline` from the source. -/
def Stream.SetWriteDeadline (s : Stream) (t : Nat) : Option MErr × Stream :=
  if s.isClosed then (some .streamClosed, s)
  else (none, { s with wDeadline := t })

/-- A `net.Addr`: the pair of `Network()` and `String()`. -/
structure NetAddr where
  network : String
  str : String
  deriving DecidableEq, Repr

/-- `gomuxAddr.Network` from `addr.go`. -/
def gomuxAddrNetwork : String := "gomux"

/-- `gomuxAddr.String` from `addr.go`: `fmt.Sprintf("gomux:%s", y.Addr)`. -/
def gomuxAddrString (a : String) : String := "gomux:" ++ a

/-- The `gomuxAddr` value with the given `Addr` field, as a `net.Addr`. -/
def gomuxAddr (a : String) : NetAddr :=
  ⟨gomuxAddrNetwork, gomuxAddrString a⟩

/-- The address-relevant part of `Multiplex`: `con.(hasAddr)` succeeds
exactly when `conAddrs` is `some (local, remote)`. -/
structure Multiplex where
  conAddrs : Option (NetAddr × NetAddr)
  deriving DecidableEq, Repr

/-- `Multiplex.LocalAddr` from `addr.go`. -/
def Multiplex.LocalAddr (m : Multiplex) : NetAddr :=
  match m.conAddrs with
  | none => gomuxAddr "local"
  | some (l, _) => l

/-- `Multiplex.RemoteAddr` from `addr.go`. -/
def Multiplex.RemoteAddr (m : Multiplex) : NetAddr :=
  match m.conAddrs with
  | none => gomuxAddr "remote"
  | some (_, r) => r

/-- `Multiplex.Addr` from `addr.go`: `s.LocalAddr()`. -/
def Multiplex.Addr (m : Multiplex) : NetAddr := m.LocalAddr

/-- `Stream.LocalAddr` from `addr.go`: delegates to the stream's session. -/
def Stream.LocalAddr (_s : Stream) (mp : Multiplex) : NetAddr := mp.LocalAddr

/-- `Stream.RemoteAddr` from `addr.go`: delegates to the stream's session. -/
def Stream.RemoteAddr (_s : Stream) (mp : Multiplex) : NetAddr := mp.RemoteAddr

/-- A freshly opened stream: nothing queued, nothing closed, deadlines
disabled, no frames sent, present in the channel table. -/
def newStream (id : streamID) (nm : String) : Stream :=
  { id := id, name := nm, dataIn := [], dataInClosed := false,
    extra := none, exbuf := none, rDeadline := 0, wDeadline := 0,
    closedRemote := false, resetFired := false, closedLocal := false,
    inTable := true, released := [], framesSent := [], asyncResets := 0,
    killed := false }

/-- The pool-buffer identities currently held by the stream: the front
buffer (`exbuf`) and every buffer still in the inbound queue. -/
def heldIds (s : Stream) : List Nat :=
  (match s.exbuf with | some b => [b.bid] | none => []) ++ s.dataIn.map Buf.bid

/-- `extra` is non-null iff `exbuf` is, and then `extra` is a terminal
sub-slice of `exbuf`. -/
def extraInExbuf (s : Stream) : Bool :=
  match s.extra, s.exbuf with
  | some ex, some b => ex.isSuffixOf b.data
  | none, none => true
  | _, _ => false

/-- The buffer-discipline invariant: the `extra`/`exbuf` coupling, plus
no buffer identity occurring twice across the release log and the buffers
still held (so no buffer can ever be released twice, and no held buffer was
already released). -/
def BufInv (s : Stream) : Prop :=
  extraInExbuf s = true ∧ (s.released ++ heldIds s).Nodup

/-- C10: when the transport does not expose addresses, `LocalAddr` returns
the ("gomux", "gomux:local") address and `RemoteAddr` the
("gomux", "gomux:remote") one; when it does, both delegate to the
transport; a stream's addresses equal its session's. -/
theorem C10_addresses (m : Multiplex) (s : Stream) (l r : NetAddr) :
    (m.conAddrs = none →
      m.LocalAddr.network = "gomux" ∧ m.LocalAddr.str = "gomux:local" ∧
      m.RemoteAddr.network = "gomux" ∧ m.RemoteAddr.str = "gomux:remote") ∧
    (m.conAddrs = some (l, r) → m.LocalAddr = l ∧ m.RemoteAddr = r) ∧
    s.LocalAddr m = m.LocalAddr ∧ s.RemoteAddr m = m.RemoteAddr := by
  refine ⟨?_, ?_, rfl, rfl⟩ <;> intro h <;>
    simp [Multiplex.LocalAddr, Multiplex.RemoteAddr, h, gomuxAddr,
      gomuxAddrNetwork, gomuxAddrString]

/-- Witness for C10 on a transport with no addresses. -/
theorem C10_addresses_witness :
    (Multiplex.LocalAddr ⟨none⟩).network = "gomux" ∧
    (Multiplex.LocalAddr ⟨none⟩).str = "gomux:local" ∧
    (Multiplex.RemoteAddr ⟨none⟩).network = "gomux" ∧
    (Multiplex.RemoteAddr ⟨none⟩).str = "gomux:remote" :=
  (C10_addresses ⟨none⟩ (newStream ⟨1, true⟩ "") (gomuxAddr "local")
    (gomuxAddr "remote")).1 rfl

/-- C5: the first `Reset` on a not-fully-closed, not-yet-reset stream fires
the reset signal, closes the local side, marks the remote side closed,
cancels both deadlines, spawns exactly one asynchronous Reset-frame
emission, removes the stream from the channel table and returns nil; a
second `Reset` returns nil and changes nothing. -/
theorem C5_reset_idempotent (s : Stream)
    (hfull : (s.closedRemote && s.closedLocal) = false)
    (hnr : s.resetFired = false) :
    (s.Reset).1 = none ∧
    (s.Reset).2.resetFired = true ∧
    (s.Reset).2.closedLocal = true ∧
    (s.Reset).2.closedRemote = true ∧
    (s.Reset).2.rDeadline = 0 ∧
    (s.Reset).2.wDeadline = 0 ∧
    (s.Reset).2.asyncResets = s.asyncResets + 1 ∧
    (s.Reset).2.inTable = false ∧
    (s.Reset).2.Reset = (none, (s.Reset).2) := by
  have h1 : (s.closedRemote && s.closedLocal) = false := hfull
  simp [Stream.Reset, Stream.isClosed, Stream.cancelDeadlines, h1, hnr]

/-- Witness for C5: both calls on a fresh stream, the second a no-op. -/
theorem C5_reset_idempotent_witness :
    ((newStream ⟨1, true⟩ "").Reset).2.Reset
      = (none, ((newStream ⟨1, true⟩ "").Reset).2) :=
  (C5_reset_idempotent (newStream ⟨1, true⟩ "") rfl rfl).2.2.2.2.2.2.2.2

/-- C9: `Reset` on a fully closed stream returns nil and leaves the whole
state unchanged (no reset signal, no deadline or table change), so a later
`Read` on a drained, remotely closed stream still observes EOF rather than
Reset. -/
theorem C9_reset_after_full_close (s : Stream) (now cap : Nat)
    (hr : s.closedRemote = true) (hl : s.closedLocal = true) :
    s.Reset = (none, s) ∧
    (s.resetFired = false → s.extra = none → s.dataIn = [] →
      s.dataInClosed = true →
      s.Read now .rData cap = some (0, some .eof, s)) := by
  constructor
  · simp [Stream.Reset, Stream.isClosed, hr, hl]
  · intro h1 h2 h3 h4
    simp [Stream.Read, Stream.waitForData, Stream.wfdReady, h1, h2, h3, h4]

/-- A fully closed stream whose inbound queue is closed and drained. -/
def closedDrained : Stream :=
  { newStream ⟨1, true⟩ "" with
      closedRemote := true, closedLocal := true, dataInClosed := true }

/-- Witness for C9 on a concrete fully closed, drained stream. -/
theorem C9_reset_after_full_close_witness :
    closedDrained.Read 0 .rData 4 = some (0, some .eof, closedDrained) :=
  (C9_reset_after_full_close closedDrained 0 4 rfl rfl).2 rfl rfl rfl rfl

/-- C7: `SetReadDeadline` rejects with the stream-closed error exactly when
the remote (read) side is closed and otherwise sets the read deadline;
`SetWriteDeadline` rejects exactly when the local (write) side is closed and
otherwise sets the write deadline; `SetDeadline` rejects exactly when both
sides are closed and otherwise updates each deadline whose side is still
open. -/
theorem C7_set_deadlines (s : Stream) (t : Nat) :
    (s.closedRemote = true → s.SetReadDeadline t = (some .streamClosed, s)) ∧
    (s.closedRemote = false →
      s.SetReadDeadline t = (none, { s with rDeadline := t })) ∧
    (s.closedLocal = true → s.SetWriteDeadline t = (some .streamClosed, s)) ∧
    (s.closedLocal = false →
      s.SetWriteDeadline t = (none, { s with wDeadline := t })) ∧
    (s.closedRemote = true → s.closedLocal = true →
      s.SetDeadline t = (some .streamClosed, s)) ∧
    ((s.closedRemote && s.closedLocal) = false →
      (s.SetDeadline t).1 = none ∧
      (s.SetDeadline t).2.rDeadline
        = (if s.closedRemote then s.rDeadline else t) ∧
      (s.SetDeadline t).2.wDeadline
        = (if s.closedLocal then s.wDeadline else t)) := by
  cases hr : s.closedRemote <;> cases hl : s.closedLocal <;>
    simp [Stream.SetDeadline, Stream.SetReadDeadline, Stream.SetWriteDeadline,
      Stream.isClosed, hr, hl]

/-- Witness for C7: setting the read deadline on a fresh stream. -/
theorem C7_set_deadlines_witness :
    (newStream ⟨1, true⟩ "").SetReadDeadline 3
      = (none, { newStream ⟨1, true⟩ "" with rDeadline := 3 }) :=
  (C7_set_deadlines (newStream ⟨1, true⟩ "") 3).2.1 rfl

/-- C6 fails as stated: `Close` submits its Close frame before checking
whether the stream is already closed, so a second (successful-send) `Close`
puts a second Close frame on the wire.  Here the trace after two `Close`
calls on a fresh stream holds two Close frames, where the claim allows
one. -/
theorem C6_counterexample :
    ((((newStream ⟨1, true⟩ "").Close none false).2.Close none false)).2.framesSent
      = [⟨closeTag, streamID.header ⟨1, true⟩ closeTag, 0, ResetStreamTimeout⟩,
         ⟨closeTag, streamID.header ⟨1, true⟩ closeTag, 0, ResetStreamTimeout⟩] := by
  rfl

/-- C6 as amended: the first `Close` (successful send) submits a Close frame
under the `ResetStreamTimeout` bound, marks the stream locally closed,
removes it from the channel table exactly when the remote side was already
closed, and returns nil; a second `Close` returns nil and leaves the state
unchanged except that it submits one more Close frame. -/
theorem C6_close_idempotent (s : Stream) (sh : Bool)
    (hnc : s.closedLocal = false) :
    (s.Close none sh).1 = none ∧
    (s.Close none sh).2.closedLocal = true ∧
    (s.Close none sh).2.framesSent = s.framesSent ++
      [⟨closeTag, s.id.header closeTag, 0, ResetStreamTimeout⟩] ∧
    (s.Close none sh).2.inTable
      = (if s.closedRemote then false else s.inTable) ∧
    (s.Close none sh).2.closedRemote = s.closedRemote ∧
    (s.Close none sh).2.killed = s.killed ∧
    ((s.Close none sh).2.Close none sh).1 = none ∧
    ((s.Close none sh).2.Close none sh).2
      = { (s.Close none sh).2 with
          framesSent := (s.Close none sh).2.framesSent ++
            [⟨closeTag, s.id.header closeTag, 0, ResetStreamTimeout⟩] } := by
  cases hr : s.closedRemote <;>
    simp [Stream.Close, Stream.isClosed, Stream.cancelDeadlines, hnc, hr]

/-- Witness for C6: the second `Close` only appends one more Close frame. -/
theorem C6_close_idempotent_witness :
    (((newStream ⟨1, true⟩ "").Close none false).2.Close none false).1 = none :=
  (C6_close_idempotent (newStream ⟨1, true⟩ "") false rfl).2.2.2.2.2.2.1

/-- Unfolding of the copy loop when no front buffer is held. -/
theorem readLoop_none (s : Stream) (cap n : Nat) (hx : s.extra = none) :
    s.readLoop cap n = (n, none, s) := by
  rw [Stream.readLoop.eq_def, hx]

/-- Unfolding of the copy loop when a front buffer is held. -/
theorem readLoop_some (s : Stream) (cap n : Nat) (ex : List Nat)
    (hx : s.extra = some ex) :
    s.readLoop cap n =
      if n < cap then
        if min (cap - n) ex.length < ex.length then
          (n + min (cap - n) ex.length, none,
            { s with extra := some (ex.drop (min (cap - n) ex.length)) })
        else (s.releaseFront.preloadData).readLoop cap (n + min (cap - n) ex.length)
      else (n, none, s) := by
  rw [Stream.readLoop.eq_def, hx]

/-- The copy loop itself never reports an error. -/
theorem readLoop_err_none (s : Stream) (cap n : Nat) :
    (s.readLoop cap n).2.1 = none := by
  induction s, cap, n using Stream.readLoop.induct with
  | case1 s cap n hx => rw [readLoop_none s cap n hx]
  | case2 s cap n ex hx hn read hlt =>
      rw [readLoop_some s cap n ex hx, if_pos hn, if_pos hlt]
  | case3 s cap n ex hx hn read hge ih =>
      rw [readLoop_some s cap n ex hx, if_pos hn, if_neg hge]
      exact ih
  | case4 s cap n ex hx hn =>
      rw [readLoop_some s cap n ex hx, if_neg hn]

/-- The copy loop never shrinks the byte count it was entered with. -/
theorem readLoop_ge (s : Stream) (cap n : Nat) : n ≤ (s.readLoop cap n).1 := by
  induction s, cap, n using Stream.readLoop.induct with
  | case1 s cap n hx => rw [readLoop_none s cap n hx]
  | case2 s cap n ex hx hn read hlt =>
      rw [readLoop_some s cap n ex hx, if_pos hn, if_pos hlt]
      simp
  | case3 s cap n ex hx hn read hge ih =>
      have hread : read = min (cap - n) ex.length := rfl
      rw [readLoop_some s cap n ex hx, if_pos hn, if_neg hge]
      rw [hread] at ih
      omega
  | case4 s cap n ex hx hn =>
      rw [readLoop_some s cap n ex hx, if_neg hn]

/-- Entering the copy loop with a non-empty front buffer and room to copy
yields at least one byte. -/
theorem readLoop_pos (s : Stream) (cap : Nat) (ex : List Nat)
    (hx : s.extra = some ex) (hex : ex ≠ []) (hcap : 1 ≤ cap) :
    1 ≤ (s.readLoop cap 0).1 := by
  have hlen : 1 ≤ ex.length := List.length_pos.mpr hex
  have h2 : (0 : Nat) < cap := hcap
  rw [readLoop_some s cap 0 ex hx, if_pos h2]
  by_cases hlt : min (cap - 0) ex.length < ex.length
  · rw [if_pos hlt]
    simp
    omega
  · rw [if_neg hlt]
    have h3 := readLoop_ge (s.releaseFront.preloadData) cap (0 + min (cap - 0) ex.length)
    omega

/-- Every buffer the stream holds is non-empty: the front slice if one is
loaded, and every queued buffer. -/
def nonemptyBufs (s : Stream) : Bool :=
  (match s.extra with | some ex => !ex.isEmpty | none => true) &&
  s.dataIn.all (fun b => !b.data.isEmpty)

/-- Characterization of a failed `waitForData`. -/
theorem waitForData_err (s : Stream) (now : Nat) (c : RChoice)
    (r : MErr) (s1 : Stream) (h : s.waitForData now c = some (some r, s1)) :
    (r = .reset ∧ s.resetFired = true) ∨
    (r = .eof ∧ s.dataIn = [] ∧ s.dataInClosed = true) ∨
    (r = .timeout ∧ s.rDeadline ≠ 0 ∧ s.rDeadline ≤ now) := by
  unfold Stream.waitForData at h
  split at h
  · rename_i hready
    cases c with
    | rReset =>
        simp only [Option.some.injEq, Prod.mk.injEq] at h
        exact Or.inl ⟨h.1.symm, by simpa [Stream.wfdReady] using hready⟩
    | rData =>
        cases hd : s.dataIn with
        | cons b rest => rw [hd] at h; simp at h
        | nil =>
            rw [hd] at h
            simp only [Option.some.injEq, Prod.mk.injEq] at h
            have hcl : s.dataInClosed = true := by
              have h2 := hready
              simp [Stream.wfdReady, hd] at h2
              exact h2
            exact Or.inr (Or.inl ⟨h.1.symm, rfl, hcl⟩)
    | rTimeout =>
        simp only [Option.some.injEq, Prod.mk.injEq] at h
        refine Or.inr (Or.inr ⟨h.1.symm, ?_⟩)
        simpa [Stream.wfdReady] using hready
  · exact absurd h (by simp)

/-- Characterization of a successful `waitForData`: it pops the head of the
inbound queue into `extra`/`exbuf`. -/
theorem waitForData_ok (s : Stream) (now : Nat) (c : RChoice) (s1 : Stream)
    (h : s.waitForData now c = some (none, s1)) :
    ∃ b rest, s.dataIn = b :: rest ∧
      s1 = { s with extra := some b.data, exbuf := some b, dataIn := rest } := by
  unfold Stream.waitForData at h
  split at h
  · cases c with
    | rReset => simp at h
    | rData =>
        cases hd : s.dataIn with
        | cons b rest =>
            rw [hd] at h
            simp only [Option.some.injEq, Prod.mk.injEq] at h
            exact ⟨b, rest, rfl, h.2.symm⟩
        | nil => rw [hd] at h; simp at h
    | rTimeout => simp at h
  · exact absurd h (by simp)

/-- A stream with one loaded front buffer `[7]` and nothing queued. -/
def oneByteReady : Stream :=
  { newStream ⟨1, true⟩ "" with extra := some [7], exbuf := some ⟨0, [7]⟩ }

/-- C4 fails as stated: with a byte already buffered, `Read` on the empty
destination buffer returns 0 bytes and a nil error. -/
theorem C4_counterexample :
    oneByteReady.Read 0 .rData 0 = some (0, none, oneByteReady) := by
  show some (oneByteReady.readLoop 0 0) = some (0, none, oneByteReady)
  rw [readLoop_some oneByteReady 0 0 [7] rfl]
  norm_num

/-- C4 as amended: for a non-empty destination buffer, on a stream all of
whose held buffers are non-empty, `Read` never returns 0 bytes with a nil
error: it returns at least one byte, or the timeout error with the read
deadline expired, or EOF with the inbound queue closed and drained, or the
reset error with the reset signal fired. -/
theorem C4_read_no_silent_zero (s : Stream) (now : Nat) (c : RChoice)
    (cap : Nat) (hcap : 1 ≤ cap) (hne : nonemptyBufs s = true) :
    ∀ n e s1, s.Read now c cap = some (n, e, s1) →
      (e = none → 1 ≤ n) ∧
      (e = none ∨ e = some .timeout ∨ e = some .eof ∨ e = some .reset) ∧
      (e = some .eof → s.dataIn = [] ∧ s.dataInClosed = true) ∧
      (e = some .reset → s.resetFired = true) ∧
      (e = some .timeout → s.rDeadline ≠ 0 ∧ s.rDeadline ≤ now) := by
  intro n e s1 h
  by_cases hr : s.resetFired
  · simp only [Stream.Read, hr, if_true, Option.some.injEq, Prod.mk.injEq] at h
    obtain ⟨h1, h2, h3⟩ := h
    subst h1; subst h2
    exact ⟨by simp, by simp, by simp, fun _ => hr, by simp⟩
  · cases hx : s.extra with
    | some ex =>
        have hexne : ex ≠ [] := by
          simp [nonemptyBufs, hx] at hne
          exact hne.1
        simp [Stream.Read, hr, hx] at h
        have hpos := readLoop_pos s cap ex hx hexne hcap
        have herr := readLoop_err_none s cap 0
        have h1 : (s.readLoop cap 0).1 = n := by rw [h]
        have h2 : (s.readLoop cap 0).2.1 = e := by rw [h]
        rw [herr] at h2
        refine ⟨fun _ => by omega, Or.inl h2.symm, ?_, ?_, ?_⟩
        · intro hc; rw [← h2] at hc; cases hc
        · intro hc; rw [← h2] at hc; cases hc
        · intro hc; rw [← h2] at hc; cases hc
    | none =>
        cases hw : s.waitForData now c with
        | none => simp [Stream.Read, hr, hx, hw] at h
        | some p =>
            obtain ⟨r0, s2⟩ := p
            cases r0 with
            | some e2 =>
                simp [Stream.Read, hr, hx, hw] at h
                obtain ⟨h1, h2, h3⟩ := h
                subst h1; subst h2
                rcases waitForData_err s now c e2 s2 hw with
                  ⟨rfl, hres⟩ | ⟨rfl, hq⟩ | ⟨rfl, hdl⟩
                · exact absurd hres hr
                · exact ⟨by simp, by simp, fun _ => hq, by simp, by simp⟩
                · exact ⟨by simp, by simp, by simp, by simp, fun _ => hdl⟩
            | none =>
                obtain ⟨b, rest, hd, hs2⟩ := waitForData_ok s now c s2 hw
                have hbne : b.data ≠ [] := by
                  simp [nonemptyBufs, hx] at hne
                  exact hne b (by rw [hd]; exact List.mem_cons_self b rest)
                have hx2 : s2.extra = some b.data := by rw [hs2]
                simp [Stream.Read, hr, hx, hw] at h
                have hpos := readLoop_pos s2 cap b.data hx2 hbne hcap
                have herr := readLoop_err_none s2 cap 0
                have h1 : (s2.readLoop cap 0).1 = n := by rw [h]
                have h2 : (s2.readLoop cap 0).2.1 = e := by rw [h]
                rw [herr] at h2
                refine ⟨fun _ => by omega, Or.inl h2.symm, ?_, ?_, ?_⟩
                · intro hc; rw [← h2] at hc; cases hc
                · intro hc; rw [← h2] at hc; cases hc
                · intro hc; rw [← h2] at hc; cases hc

/-- A stream with a loaded two-byte front buffer. -/
def twoBytesReady : Stream :=
  { newStream ⟨1, true⟩ "" with extra := some [7, 8], exbuf := some ⟨0, [7, 8]⟩ }

/-- Witness for C4 as amended, reading one byte out of a two-byte buffer. -/
theorem C4_read_no_silent_zero_witness :
    ((none : Option MErr) = none → 1 ≤ 1) ∧
    ((none : Option MErr) = none ∨ (none : Option MErr) = some .timeout ∨
      (none : Option MErr) = some .eof ∨ (none : Option MErr) = some .reset) ∧
    ((none : Option MErr) = some .eof →
      twoBytesReady.dataIn = [] ∧ twoBytesReady.dataInClosed = true) ∧
    ((none : Option MErr) = some .reset → twoBytesReady.resetFired = true) ∧
    ((none : Option MErr) = some .timeout →
      twoBytesReady.rDeadline ≠ 0 ∧ twoBytesReady.rDeadline ≤ 0) := by
  have h : twoBytesReady.Read 0 .rData 1
      = some (1, none, { twoBytesReady with extra := some [8] }) := by
    show some (twoBytesReady.readLoop 1 0)
      = some (1, none, { twoBytesReady with extra := some [8] })
    rw [readLoop_some twoBytesReady 1 0 [7, 8] rfl]
    norm_num
  exact C4_read_no_silent_zero twoBytesReady 0 .rData 1 (by norm_num) (by decide)
    1 none ({ twoBytesReady with extra := some [8] }) h

/-- `returnBuffers` releases exactly the held buffers, in order: the front
buffer first, then the queued ones. -/
theorem returnBuffers_released (s : Stream) :
    s.returnBuffers.released = s.released ++ heldIds s := by
  cases hb : s.exbuf <;> simp [Stream.returnBuffers, heldIds, hb]

/-- A fresh stream on which `Reset` has completed. -/
def resetFresh : Stream := ((newStream ⟨1, true⟩ "").Reset).2

/-- C2 fails as stated: on a stream whose reset signal has fired, `Write` of
a non-empty buffer returns the closed-stream error, not the reset error,
because `Reset` also closed the local side and `write` checks that first. -/
theorem C2_counterexample :
    (resetFresh.Write (fun _ => none) 0 [7]).2.1 = some MErr.closedStream ∧
    some MErr.closedStream ≠ some MErr.reset := by
  constructor
  · rw [Stream.Write.eq_def]
    rfl
  · decide

/-- C2 as amended: once the reset signal has fired (which also closes the
local side), `Read` returns the reset error with the state untouched,
`Write` of a non-empty buffer returns the closed-stream error, a `Read`
blocked in `waitForData` when the signal fires returns every held buffer to
the pool exactly once via `returnBuffers` and fails with the reset error,
and under the buffer invariant no buffer is released twice. -/
theorem C2_reset_semantics (s : Stream) (now cap : Nat) (c : RChoice)
    (send : Nat → Option MErr) (x : Nat) (xs : List Nat)
    (hres : s.resetFired = true) (hcl : s.closedLocal = true) :
    s.Read now c cap = some (0, some .reset, s) ∧
    (s.Write send 0 (x :: xs)).1 = 0 ∧
    (s.Write send 0 (x :: xs)).2.1 = some .closedStream ∧
    s.returnBuffers.released = s.released ++ heldIds s ∧
    (BufInv s → s.returnBuffers.released.Nodup) ∧
    s.waitForData now .rReset = some (some .reset, s.returnBuffers) := by
  refine ⟨?_, ?_, ?_, returnBuffers_released s, ?_, ?_⟩
  · simp [Stream.Read, hres]
  · rw [Stream.Write.eq_def]
    simp [Stream.write, Stream.isClosed, hcl]
  · rw [Stream.Write.eq_def]
    simp [Stream.write, Stream.isClosed, hcl]
  · intro h
    rw [returnBuffers_released s]
    exact h.2
  · simp [Stream.waitForData, Stream.wfdReady, hres]

/-- Witness for C2 as amended: `Read` on a freshly reset stream. -/
theorem C2_reset_semantics_witness :
    resetFresh.Read 0 .rData 1 = some (0, some .reset, resetFresh) :=
  (C2_reset_semantics resetFresh 0 1 .rData (fun _ => none) 7 [] rfl rfl).1

/-- The buffer invariant only looks at `extra`, `exbuf`, `dataIn` and
`released`, so it transports along any operation preserving those fields. -/
theorem bufInv_of_eq (s s' : Stream) (h1 : s'.extra = s.extra)
    (h2 : s'.exbuf = s.exbuf) (h3 : s'.dataIn = s.dataIn)
    (h4 : s'.released = s.released) (h : BufInv s) : BufInv s' := by
  unfold BufInv extraInExbuf heldIds at *
  rw [h1, h2, h3, h4]
  exact h

/-- `preloadData` preserves the buffer invariant. -/
theorem bufInv_preloadData (s : Stream) (h : BufInv s) :
    BufInv s.preloadData := by
  cases hd : s.dataIn with
  | nil =>
      unfold Stream.preloadData
      rw [hd]
      exact h
  | cons b rest =>
      unfold Stream.preloadData
      rw [hd]
      constructor
      · simp [extraInExbuf]
      · have h2 := h.2
        unfold heldIds at h2 ⊢
        cases hb : s.exbuf with
        | none =>
            rw [hb, hd] at h2
            simpa using h2
        | some c =>
            rw [hb, hd] at h2
            simp only [List.map_cons] at h2 ⊢
            refine List.Nodup.sublist ?_ h2
            simp only [List.singleton_append, List.cons_append]
            refine List.Sublist.append_left ?_ s.released
            exact List.Sublist.cons _ (List.Sublist.refl _)

/-- `returnBuffers` preserves the buffer invariant. -/
theorem bufInv_returnBuffers (s : Stream) (h : BufInv s) :
    BufInv s.returnBuffers := by
  constructor
  · cases hb : s.exbuf with
    | some b => simp [Stream.returnBuffers, extraInExbuf, hb]
    | none =>
        have hx : s.extra = none := by
          have h1 := h.1
          unfold extraInExbuf at h1
          rw [hb] at h1
          cases hxx : s.extra with
          | none => rfl
          | some ex => rw [hxx] at h1; simp at h1
        simp [Stream.returnBuffers, extraInExbuf, hb, hx]
  · rw [returnBuffers_released s]
    have hheld : heldIds s.returnBuffers = [] := by
      cases hb : s.exbuf <;> simp [Stream.returnBuffers, heldIds, hb]
    rw [hheld, List.append_nil]
    exact h.2

/-- `waitForData` preserves the buffer invariant. -/
theorem bufInv_waitForData (s : Stream) (now : Nat) (c : RChoice)
    (h : BufInv s) :
    ∀ r s1, s.waitForData now c = some (r, s1) → BufInv s1 := by
  intro r s1 hw
  unfold Stream.waitForData at hw
  split at hw
  · cases c with
    | rReset =>
        simp only [Option.some.injEq, Prod.mk.injEq] at hw
        rw [← hw.2]
        exact bufInv_returnBuffers s h
    | rData =>
        cases hd : s.dataIn with
        | cons b rest =>
            rw [hd] at hw
            simp only [Option.some.injEq, Prod.mk.injEq] at hw
            rw [← hw.2]
            have heq2 : ({ s with
                extra := some b.data, exbuf := some b, dataIn := rest } : Stream)
                = s.preloadData := by
              unfold Stream.preloadData
              rw [hd]
            rw [heq2]
            exact bufInv_preloadData s h
        | nil =>
            rw [hd] at hw
            simp only [Option.some.injEq, Prod.mk.injEq] at hw
            rw [← hw.2]
            exact h
    | rTimeout =>
        simp only [Option.some.injEq, Prod.mk.injEq] at hw
        rw [← hw.2]
        exact h
  · exact absurd hw (by simp)

/-- `releaseFront` preserves the buffer invariant. -/
theorem bufInv_releaseFront (s : Stream) (h : BufInv s) :
    BufInv s.releaseFront := by
  constructor
  · cases hb : s.exbuf <;> simp [Stream.releaseFront, extraInExbuf, hb]
  · have h2 := h.2
    unfold heldIds at h2 ⊢
    cases hb : s.exbuf with
    | none =>
        simp only [Stream.releaseFront, hb]
        rw [hb] at h2
        simpa using h2
    | some b =>
        simp only [Stream.releaseFront, hb]
        rw [hb] at h2
        simpa [List.append_assoc] using h2

/-- The copy loop of `Read` preserves the buffer invariant. -/
theorem bufInv_readLoop (s : Stream) (cap n : Nat) (h : BufInv s) :
    BufInv (s.readLoop cap n).2.2 := by
  induction s, cap, n using Stream.readLoop.induct with
  | case1 s cap n hx =>
      rw [readLoop_none s cap n hx]
      exact h
  | case2 s cap n ex hx hn read hlt =>
      rw [readLoop_some s cap n ex hx, if_pos hn, if_pos hlt]
      obtain ⟨b, hb, hsuf⟩ : ∃ b, s.exbuf = some b ∧ ex.isSuffixOf b.data := by
        have h1 := h.1
        unfold extraInExbuf at h1
        rw [hx] at h1
        cases hb : s.exbuf with
        | none => rw [hb] at h1; simp at h1
        | some b => rw [hb] at h1; exact ⟨b, rfl, h1⟩
      constructor
      · unfold extraInExbuf
        simp only [hb]
        rw [List.isSuffixOf_iff_suffix] at hsuf ⊢
        exact (List.drop_suffix _ _).trans hsuf
      · have h2 := h.2
        unfold heldIds at h2 ⊢
        simpa [hb] using h2
  | case3 s cap n ex hx hn read hge ih =>
      rw [readLoop_some s cap n ex hx, if_pos hn, if_neg hge]
      exact ih (bufInv_preloadData _ (bufInv_releaseFront s h))
  | case4 s cap n ex hx hn =>
      rw [readLoop_some s cap n ex hx, if_neg hn]
      exact h

/-- `Read` preserves the buffer invariant. -/
theorem bufInv_Read (s : Stream) (now : Nat) (c : RChoice) (cap : Nat)
    (h : BufInv s) :
    ∀ m r s1, s.Read now c cap = some (m, r, s1) → BufInv s1 := by
  intro m r s1 hr
  unfold Stream.Read at hr
  split at hr
  · simp only [Option.some.injEq, Prod.mk.injEq] at hr
    rw [← hr.2.2]
    exact h
  · split at hr
    · rename_i hx
      cases hw : s.waitForData now c with
      | none => rw [hw] at hr; cases hr
      | some p =>
          obtain ⟨r0, s2⟩ := p
          have hs2 : BufInv s2 := bufInv_waitForData s now c h r0 s2 hw
          rw [hw] at hr
          cases r0 with
          | some e2 =>
              simp only [Option.some.injEq, Prod.mk.injEq] at hr
              rw [← hr.2.2]
              exact hs2
          | none =>
              simp only [Option.some.injEq] at hr
              have h3 : s1 = (s2.readLoop cap 0).2.2 := by rw [hr]
              rw [h3]
              exact bufInv_readLoop s2 cap 0 hs2
    · rename_i ex hx
      simp only [Option.some.injEq] at hr
      have h3 : s1 = (s.readLoop cap 0).2.2 := by rw [hr]
      rw [h3]
      exact bufInv_readLoop s cap 0 h

/-- `write` (single chunk) preserves the buffer invariant. -/
theorem bufInv_write (s : Stream) (res : Option MErr) (b : List Nat)
    (h : BufInv s) : BufInv (s.write res b).2.2 := by
  unfold Stream.write
  split
  · exact h
  · split
    · exact h
    · exact bufInv_of_eq _ _ rfl rfl rfl rfl h

/-- `Write` preserves the buffer invariant. -/
theorem bufInv_Write (s : Stream) (send : Nat → Option MErr) (idx : Nat)
    (b : List Nat) (h : BufInv s) : BufInv (s.Write send idx b).2.2 := by
  induction s, send, idx, b using Stream.Write.induct with
  | case1 s send idx =>
      rw [Stream.Write.eq_def]
      exact h
  | case2 s send idx x xs wl p e s1 hw =>
      rw [Stream.Write.eq_def]
      simp only [hw]
      have := bufInv_write s (send idx) ((x :: xs).take wl) h
      rw [hw] at this
      exact this
  | case3 s send idx x xs wl n s1 hw ih =>
      rw [Stream.Write.eq_def]
      simp only [hw]
      have hs1 : BufInv s1 := by
        have := bufInv_write s (send idx) ((x :: xs).take wl) h
        rw [hw] at this
        exact this
      exact ih hs1

/-- `Close` preserves the buffer invariant. -/
theorem bufInv_Close (s : Stream) (sendErr : Option MErr) (sh : Bool)
    (h : BufInv s) : BufInv (s.Close sendErr sh).2 := by
  cases sendErr <;> cases hl : s.closedLocal <;> cases hr : s.closedRemote <;>
    cases sh <;>
    simp only [Stream.Close, Stream.isClosed, Stream.cancelDeadlines, hl, hr,
      Bool.false_eq_true, if_false, if_true, Bool.not_false, Bool.not_true] <;>
    exact bufInv_of_eq _ _ rfl rfl rfl rfl h

/-- `Reset` preserves the buffer invariant. -/
theorem bufInv_Reset (s : Stream) (h : BufInv s) : BufInv (s.Reset).2 := by
  unfold Stream.Reset
  split
  · exact h
  · split
    · exact h
    · exact bufInv_of_eq _ _ rfl rfl rfl rfl h

/-- The deadline setters preserve the buffer invariant. -/
theorem bufInv_setters (s : Stream) (t : Nat) (h : BufInv s) :
    BufInv (s.SetDeadline t).2 ∧ BufInv (s.SetReadDeadline t).2 ∧
    BufInv (s.SetWriteDeadline t).2 := by
  cases hr : s.closedRemote <;> cases hl : s.closedLocal <;>
    refine ⟨?_, ?_, ?_⟩ <;>
    simp only [Stream.SetDeadline, Stream.SetReadDeadline,
      Stream.SetWriteDeadline, Stream.isClosed, hr, hl, Bool.and_true,
      Bool.and_false, Bool.true_and, Bool.false_and, Bool.not_true,
      Bool.not_false, Bool.false_eq_true, if_true, if_false] <;>
    first
      | exact h
      | exact bufInv_of_eq _ _ rfl rfl rfl rfl h

/-- C8: every stream operation preserves the buffer-discipline invariant:
`extra` is non-null iff `exbuf` is (and is then a terminal sub-slice of
`exbuf`), and no pool-buffer identity ever occurs twice across the release
log and the held buffers, so the release on full consumption in `Read` and
the release in `returnBuffers` can never release the same buffer twice. -/
theorem C8_buffer_discipline (s : Stream) (now : Nat) (c : RChoice)
    (cap n idx : Nat) (send : Nat → Option MErr) (res sendErr : Option MErr)
    (sh : Bool) (t : Nat) (b : List Nat) (h : BufInv s) :
    s.released.Nodup ∧
    BufInv s.preloadData ∧
    BufInv s.returnBuffers ∧
    (∀ r s1, s.waitForData now c = some (r, s1) → BufInv s1) ∧
    BufInv (s.readLoop cap n).2.2 ∧
    (∀ m r s1, s.Read now c cap = some (m, r, s1) → BufInv s1) ∧
    BufInv (s.write res b).2.2 ∧
    BufInv (s.Write send idx b).2.2 ∧
    BufInv (s.Close sendErr sh).2 ∧
    BufInv (s.Reset).2 ∧
    BufInv (s.SetDeadline t).2 ∧
    BufInv (s.SetReadDeadline t).2 ∧
    BufInv (s.SetWriteDeadline t).2 :=
  ⟨(List.nodup_append.mp h.2).1,
   bufInv_preloadData s h, bufInv_returnBuffers s h,
   bufInv_waitForData s now c h, bufInv_readLoop s cap n h,
   bufInv_Read s now c cap h, bufInv_write s res b h,
   bufInv_Write s send idx b h, bufInv_Close s sendErr sh h,
   bufInv_Reset s h, (bufInv_setters s t h).1,
   (bufInv_setters s t h).2.1, (bufInv_setters s t h).2.2⟩

/-- Witness for C8 on a stream holding one front buffer and one queued
buffer. -/
theorem C8_buffer_discipline_witness :
    BufInv (Stream.returnBuffers
      { newStream ⟨1, true⟩ "" with
          extra := some [7], exbuf := some ⟨0, [7]⟩,
          dataIn := [⟨1, [9, 9]⟩] }) :=
  (C8_buffer_discipline
    { newStream ⟨1, true⟩ "" with
        extra := some [7], exbuf := some ⟨0, [7]⟩, dataIn := [⟨1, [9, 9]⟩] }
    0 .rData 1 0 0 (fun _ => none) none none false 0 []
    (by constructor <;> decide)).2.2.1

/-- Unfolding of `chunks` on the empty buffer. -/
theorem chunks_nil : chunks [] = [] := by
  rw [chunks.eq_def]

/-- Unfolding of `chunks` on a non-empty buffer. -/
theorem chunks_cons (x : Nat) (xs : List Nat) :
    chunks (x :: xs)
      = (x :: xs).take MaxMessageSize :: chunks ((x :: xs).drop MaxMessageSize) := by
  rw [chunks.eq_def]

/-- Every chunk is at most `MaxMessageSize` long. -/
theorem chunks_length_le (b : List Nat) :
    ∀ ch ∈ chunks b, ch.length ≤ MaxMessageSize := by
  induction b using chunks.induct with
  | case1 => rw [chunks_nil]; intro ch hch; cases hch
  | case2 x xs ih =>
      rw [chunks_cons]
      intro ch hch
      rcases List.mem_cons.mp hch with rfl | hm
      · rw [List.length_take]
        exact min_le_left _ _
      · exact ih ch hm

/-- Concatenating the chunks gives back the buffer. -/
theorem chunks_flatten (b : List Nat) : (chunks b).flatten = b := by
  induction b using chunks.induct with
  | case1 => rw [chunks_nil]; rfl
  | case2 x xs ih =>
      rw [chunks_cons, List.flatten_cons, ih, List.take_append_drop]

/-- There are exactly ⌈len / MaxMessageSize⌉ chunks. -/
theorem chunks_length (b : List Nat) :
    (chunks b).length = (b.length + MaxMessageSize - 1) / MaxMessageSize := by
  have hM : MaxMessageSize = 1048576 := by decide
  induction b using chunks.induct with
  | case1 =>
      rw [chunks_nil, hM]
      simp
  | case2 x xs ih =>
      rw [chunks_cons] at *
      rw [List.length_cons, ih, List.length_drop, hM]
      have hL : 1 ≤ (x :: xs).length := by simp
      omega

/-- Taking `min len MaxMessageSize` elements is the same as taking
`MaxMessageSize`. -/
theorem take_min_eq (l : List Nat) :
    l.take (min l.length MaxMessageSize) = l.take MaxMessageSize := by
  by_cases hle : l.length ≤ MaxMessageSize
  · rw [min_eq_left hle, List.take_length, List.take_of_length_le hle]
  · rw [min_eq_right (le_of_not_le hle)]

/-- Dropping `min len MaxMessageSize` elements is the same as dropping
`MaxMessageSize`. -/
theorem drop_min_eq (l : List Nat) :
    l.drop (min l.length MaxMessageSize) = l.drop MaxMessageSize := by
  by_cases hle : l.length ≤ MaxMessageSize
  · rw [min_eq_left hle, List.drop_length, List.drop_eq_nil_of_le hle]
  · rw [min_eq_right (le_of_not_le hle)]

/-- A successful single-chunk submission. -/
theorem write_ok (s : Stream) (ch : List Nat) (hnc : s.closedLocal = false) :
    s.write none ch = (ch.length, none,
      { s with framesSent := s.framesSent ++
          [⟨messageTag, s.id.header messageTag, ch.length, s.wDeadline⟩] }) := by
  unfold Stream.write Stream.isClosed
  rw [hnc]
  simp

/-- A failed single-chunk submission (error other than cancellation). -/
theorem write_fail_chunk (s : Stream) (ch : List Nat) (e : MErr)
    (hnc : s.closedLocal = false) (he : e ≠ .canceled) :
    s.write (some e) ch = (0, some e, s) := by
  unfold Stream.write Stream.isClosed
  rw [hnc]
  simp [he]

/-- When every submission succeeds, `Write` writes the whole buffer,
returning its length, and submits exactly the chunks, in order, as Message
frames carrying the stream's header. -/
theorem Write_success (send : Nat → Option MErr) (hsend : ∀ i, send i = none) :
    ∀ b : List Nat, ∀ s : Stream, ∀ idx : Nat, s.closedLocal = false →
      s.Write send idx b =
        (b.length, none,
          { s with framesSent := s.framesSent ++ (chunks b).map (fun ch =>
              ⟨messageTag, s.id.header messageTag, ch.length, s.wDeadline⟩) }) := by
  intro b
  induction b using chunks.induct with
  | case1 =>
      intro s idx hnc
      rw [Stream.Write.eq_def, chunks_nil]
      simp
  | case2 x xs ih =>
      intro s idx hnc
      rw [Stream.Write.eq_def]
      dsimp only
      rw [hsend idx]
      rw [write_ok s ((x :: xs).take (min (x :: xs).length MaxMessageSize)) hnc]
      dsimp only
      rw [take_min_eq, drop_min_eq]
      rw [ih { s with framesSent := s.framesSent ++
            [⟨messageTag, s.id.header messageTag,
              ((x :: xs).take MaxMessageSize).length, s.wDeadline⟩] }
          (idx + 1) hnc]
      dsimp only
      rw [chunks_cons]
      simp only [Prod.mk.injEq]
      refine ⟨?_, trivial, ?_⟩
      · simp only [List.length_take, List.length_drop]
        omega
      · congr 1
        simp [List.append_assoc]

/-- When the first `k` submissions succeed and the `k`-th fails with an
error other than cancellation, `Write` returns the total length of the
first `k` chunks together with that error. -/
theorem Write_fail (send : Nat → Option MErr) (e : MErr) (he : e ≠ .canceled) :
    ∀ b : List Nat, ∀ k : Nat, ∀ s : Stream, ∀ idx : Nat,
      s.closedLocal = false →
      (∀ i, i < k → send (idx + i) = none) → send (idx + k) = some e →
      k < (chunks b).length →
      (s.Write send idx b).1 = (((chunks b).take k).flatten).length ∧
      (s.Write send idx b).2.1 = some e := by
  intro b
  induction b using chunks.induct with
  | case1 =>
      intro k s idx hnc hok hfail hk
      rw [chunks_nil] at hk
      simp at hk
  | case2 x xs ih =>
      intro k s idx hnc hok hfail hk
      cases k with
      | zero =>
          have hs : send idx = some e := by simpa using hfail
          rw [Stream.Write.eq_def]
          dsimp only
          rw [hs, write_fail_chunk s _ e hnc he]
          dsimp only
          exact ⟨by simp, rfl⟩
      | succ j =>
          have hs0 : send idx = none := by simpa using hok 0 (by omega)
          rw [Stream.Write.eq_def]
          dsimp only
          rw [hs0, write_ok s ((x :: xs).take (min (x :: xs).length MaxMessageSize)) hnc]
          dsimp only
          rw [take_min_eq, drop_min_eq]
          have hok2 : ∀ i, i < j → send (idx + 1 + i) = none := by
            intro i hi
            have h0 := hok (i + 1) (by omega)
            rw [show idx + (i + 1) = idx + 1 + i by omega] at h0
            exact h0
          have hfail2 : send (idx + 1 + j) = some e := by
            rw [show idx + 1 + j = idx + (j + 1) by omega]
            exact hfail
          have hk2 : j < (chunks ((x :: xs).drop MaxMessageSize)).length := by
            rw [chunks_cons] at hk
            simpa using hk
          have hrec := ih j
            { s with framesSent := s.framesSent ++
                [⟨messageTag, s.id.header messageTag,
                  ((x :: xs).take MaxMessageSize).length, s.wDeadline⟩] }
            (idx + 1) hnc hok2 hfail2 hk2
          rw [chunks_cons]
          refine ⟨?_, hrec.2⟩
          rw [List.take_succ_cons, List.flatten_cons, List.length_append, hrec.1]

/-- C3: `Write(b)` splits `b` into consecutive chunks of length at most
`MaxMessageSize` — ⌈len/MaxMessageSize⌉ of them, whose concatenation is `b`
— and submits each in order as a Message frame with the stream's header; on
all-success it returns `len(b)`, and if the `k`-th submission fails it
returns the byte count of the first `k` chunks together with the error. -/
theorem C3_write_fragmentation (s : Stream) (send : Nat → Option MErr)
    (b : List Nat) (hnc : s.closedLocal = false) :
    (∀ ch ∈ chunks b, ch.length ≤ MaxMessageSize) ∧
    (chunks b).length = (b.length + MaxMessageSize - 1) / MaxMessageSize ∧
    (chunks b).flatten = b ∧
    ((∀ i, send i = none) →
      s.Write send 0 b =
        (b.length, none,
          { s with framesSent := s.framesSent ++ (chunks b).map (fun ch =>
              ⟨messageTag, s.id.header messageTag, ch.length, s.wDeadline⟩) })) ∧
    (∀ k e, e ≠ MErr.canceled → (∀ i, i < k → send i = none) →
      send k = some e → k < (chunks b).length →
      (s.Write send 0 b).1 = (((chunks b).take k).flatten).length ∧
      (s.Write send 0 b).2.1 = some e) :=
  ⟨chunks_length_le b, chunks_length b, chunks_flatten b,
   fun hs => Write_success send hs b s 0 hnc,
   fun k e he hok hfail hk => Write_fail send e he b k s 0 hnc
     (fun i hi => by simpa using hok i hi) (by simpa using hfail) hk⟩

/-- Witness for C3: writing two bytes in one chunk. -/
theorem C3_write_fragmentation_witness :
    ((newStream ⟨1, true⟩ "").Write (fun _ => none) 0 [1, 2]).1 = 2 := by
  have h := (C3_write_fragmentation (newStream ⟨1, true⟩ "") (fun _ => none)
    [1, 2] rfl).2.2.2.1 (fun i => rfl)
  rw [h]
  rfl

end Gomux
